import Mathlib

/-
Verification of the walk-forward / multi-objective optimization engine in
`src/services/optuna-optimizer/optimizer.py` (classes `WalkForwardOptimizer`
and `MultiObjectiveOptimizer`).

The Python code is embedded shallowly:

* Python floats are modelled by `PyF`: exact rationals plus `inf`, `-inf`
  and `nan`, with IEEE-style propagation for the arithmetic the code uses
  (`np.mean`, subtraction, division) and Python comparison semantics
  (`nan` incomparable).
* `pandas.DataFrame` slices (`data.iloc[a:b]`) become Python-style list
  slices over an arbitrary row type.
* Exceptions become `Except`: the evaluator (`backtest_func`) may fail with
  a message; engine-level failures are `RunError` (Python's
  `ZeroDivisionError` from `len(data) // n_splits`, the `ValueError` from
  `max()` on an empty sequence / from `study.best_params` with no trials,
  and a propagated evaluator exception).
* The optuna `Trial` suggestion interface is an oracle supplying the values
  of `suggest_int` / `suggest_float` / `suggest_categorical`; the study is
  driven by one oracle per trial index.  MLflow logging is pure I/O and is
  omitted.
-/

namespace Optimizer

/-- Python float: `nan`, `-inf`, `+inf`, or a finite value (modelled as an
exact rational). -/
inductive PyF
  | nan
  | ninf
  | inf
  | val (q : ℚ)
deriving DecidableEq

/-- Negation of a Python float. -/
def pyNeg : PyF → PyF
  | .nan => .nan
  | .ninf => .inf
  | .inf => .ninf
  | .val q => .val (-q)

/-- Addition of Python floats: `nan` absorbs, `inf + (-inf) = nan`. -/
def pyAdd : PyF → PyF → PyF
  | .nan, _ => .nan
  | _, .nan => .nan
  | .inf, .ninf => .nan
  | .ninf, .inf => .nan
  | .inf, _ => .inf
  | _, .inf => .inf
  | .ninf, _ => .ninf
  | _, .ninf => .ninf
  | .val a, .val b => .val (a + b)

/-- Subtraction of Python floats (`a - b = a + (-b)`, as in IEEE). -/
def pySub (a b : PyF) : PyF := pyAdd a (pyNeg b)

/-- Division of Python floats.  At both use sites in the source the divisor
is never a zero float (`np.mean` divides by a positive count, and the
`overfit_ratio` division is guarded by `avg_is_metric != 0`), so the
division-by-zero branches are unreachable there and are mapped to `nan`. -/
def pyDiv : PyF → PyF → PyF
  | .nan, _ => .nan
  | _, .nan => .nan
  | .inf, .inf => .nan
  | .inf, .ninf => .nan
  | .ninf, .inf => .nan
  | .ninf, .ninf => .nan
  | .inf, .val q => if 0 < q then .inf else if q < 0 then .ninf else .nan
  | .ninf, .val q => if 0 < q then .ninf else if q < 0 then .inf else .nan
  | .val _, .inf => .val 0
  | .val _, .ninf => .val 0
  | .val a, .val b => if b = 0 then .nan else .val (a / b)

/-- Python `<` on floats: any comparison involving `nan` is `False`. -/
def pyLt : PyF → PyF → Bool
  | .nan, _ => false
  | _, .nan => false
  | _, .ninf => false
  | .ninf, _ => true
  | .inf, _ => false
  | .val _, .inf => true
  | .val a, .val b => decide (a < b)

/-- Python `<=` on floats: any comparison involving `nan` is `False`. -/
def pyLe : PyF → PyF → Bool
  | .nan, _ => false
  | _, .nan => false
  | .ninf, _ => true
  | _, .inf => true
  | .inf, _ => false
  | .val _, .ninf => false
  | .val a, .val b => decide (a ≤ b)

/-- Sum of a list of Python floats, left to right from `0.0` (the reduction
performed by `np.mean`'s summation). -/
def pySum (l : List PyF) : PyF := l.foldl pyAdd (.val 0)

/-- `np.mean`: sum divided by length; the mean of an empty list is `nan`
(numpy emits a `RuntimeWarning` and yields `nan`, not an exception). -/
def pyMean (l : List PyF) : PyF :=
  if l.isEmpty then .nan else pyDiv (pySum l) (.val l.length)

/-- A sampled parameter value: `suggest_int`, `suggest_float` or
`suggest_categorical` result. -/
inductive PValue
  | intV (i : ℤ)
  | floatV (q : ℚ)
  | catV (s : String)
deriving DecidableEq

/-- One entry of the `param_space` dict: `{'type': 'int'|'float'|'categorical',
'low', 'high', 'step'?, 'log'?, 'choices'}`. -/
inductive ParamConfig
  | intC (low high : ℤ) (step : Option ℤ)
  | floatC (low high : ℚ) (log : Option Bool)
  | catC (choices : List String)
deriving DecidableEq

/-- `param_space`: ordered mapping from parameter name to its configuration
(Python dicts preserve insertion order). -/
abbrev ParamSpace := List (String × ParamConfig)

/-- A parameter assignment (`params` dict), in insertion order. -/
abbrev Params := List (String × PValue)

/-- The metric mapping returned by the evaluator (`backtest_func`). -/
abbrev Metrics := List (String × PyF)

/-- Python `metrics.get(key, 0.0)`. -/
def metricsGet (m : Metrics) (k : String) : PyF :=
  match m with
  | [] => .val 0
  | (k', v) :: rest => if k' = k then v else metricsGet rest k

/-- The suggestion interface of one optuna trial, abstracted as an oracle:
the values `trial.suggest_int name low high step`,
`trial.suggest_float name low high log` and
`trial.suggest_categorical name choices` would return. -/
structure Trial where
  suggest_int : String → ℤ → ℤ → ℤ → ℤ
  suggest_float : String → ℚ → ℚ → Bool → ℚ
  suggest_categorical : String → List String → String

/-- `OptimizationConfig` (the dataclass); `n_jobs`, `timeout`, `study_name`
and `storage` only affect scheduling/persistence and are carried opaquely. -/
structure OptimizationConfig where
  n_trials : ℕ
  n_jobs : ℕ
  timeout : Option ℕ
  direction : String
  metric : String
  study_name : Option String
  storage : Option String

/-- `backtest_func(params, data) -> metrics`; may raise (modelled as
`Except.error` with the exception message). -/
abbrev Evaluator (α : Type) := Params → List α → Except String Metrics

/-- Parameter sampling of `WalkForwardOptimizer.optimize_window.objective`
(optimizer.py lines 131-151): handles `int` (with `step`, default 1),
`float` (with `log`, default `False`) and `categorical`. -/
def wfSampleParams (space : ParamSpace) (t : Trial) : Params :=
  space.map (fun p =>
    match p.2 with
    | .intC low high step => (p.1, .intV (t.suggest_int p.1 low high (step.getD 1)))
    | .floatC low high log => (p.1, .floatV (t.suggest_float p.1 low high (log.getD false)))
    | .catC choices => (p.1, .catV (t.suggest_categorical p.1 choices)))

/-- The in-sample objective of `optimize_window` (optimizer.py lines
129-171): sample params, run the backtest on the in-sample data, extract
`metrics.get(config.metric, 0.0)`; if the backtest raises, return
`float('-inf')` for maximize or `float('inf')` for minimize (the MLflow
logging inside the `try` block is I/O and omitted). -/
def wfObjective {α : Type} (space : ParamSpace) (config : OptimizationConfig)
    (bt : Evaluator α) (is_data : List α) (t : Trial) : PyF :=
  match bt (wfSampleParams space t) is_data with
  | .ok metrics => metricsGet metrics config.metric
  | .error _ => if config.direction = "maximize" then .ninf else .inf

/-- Modelled from the spec: the study's best-trial tracking
(`study.best_params` / `study.best_value` of optuna, which is not part of
src).  Per spec section 4.2 the best observed assignment is updated with a
strict improvement test (`>` for maximize, `<` for minimize), so ties keep
the earliest-found assignment; with no completed trials there is no best
(optuna raises `ValueError`). -/
def studyBest (direction : String) : List (Params × PyF) → Option (Params × PyF)
  | [] => none
  | t :: ts => some (ts.foldl
      (fun best c =>
        if direction = "maximize" then (if pyLt best.2 c.2 then c else best)
        else (if pyLt c.2 best.2 then c else best))
      t)

/-- Engine-level failures of a run: Python `ZeroDivisionError` (from
`len(data) // n_splits` with `n_splits = 0`), Python `ValueError` (from
`max()` on an empty sequence, or `study.best_params` with no trials), or a
propagated evaluator exception. -/
inductive RunError
  | zeroDivision
  | valueError (msg : String)
  | backtest (msg : String)
deriving DecidableEq

/-- Python `int(x)` on a float: truncation toward zero. -/
def pyTrunc (q : ℚ) : ℤ := if 0 ≤ q then ⌊q⌋ else ⌈q⌉

/-- Normalization of one Python slice bound against a sequence of length
`n`: negative indices count from the end, and bounds are clamped to
`[0, n]`. -/
def pySliceIdx (n : ℕ) (i : ℤ) : ℕ :=
  if i < 0 then (i + n).toNat else min i.toNat n

/-- Python slice `xs[a:b]` (also `DataFrame.iloc[a:b]` row-wise). -/
def pySlice {α : Type} (xs : List α) (a b : ℤ) : List α :=
  (xs.take (pySliceIdx xs.length b)).drop (pySliceIdx xs.length a)

/-- The window-emitting loop of `split_walk_forward` (optimizer.py lines
91-105): for `i` in `range(n_splits)` compute the in-sample/out-of-sample
index bounds and emit the two slices; `break` when `oos_end_idx` exceeds
`len(data)` (note `oos_end_idx` is clamped by `min`, so the `break` guard
can never fire).  The remaining iteration count is the second argument. -/
def splitGo {α : Type} (data : List α) (window_size is_size oos_size : ℤ) :
    ℕ → ℕ → List (List α × List α)
  | _, 0 => []
  | i, rem + 1 =>
    let start_idx := (i : ℤ) * window_size
    let is_end_idx := start_idx + is_size
    let oos_end_idx := min (is_end_idx + oos_size) (data.length : ℤ)
    if oos_end_idx > (data.length : ℤ) then []
    else (pySlice data start_idx is_end_idx, pySlice data is_end_idx oos_end_idx)
      :: splitGo data window_size is_size oos_size (i + 1) rem

/-- `WalkForwardOptimizer.split_walk_forward(data, n_splits, is_ratio)`
(optimizer.py lines 69-107): `window_size = len(data) // n_splits` (Python
floor division; `ZeroDivisionError` when `n_splits == 0`),
`is_size = int(window_size * is_ratio)` (truncation), then the window loop.
`range(n_splits)` of a negative `n_splits` is empty, hence `toNat`.  The
function performs no validation of its arguments. -/
def split_walk_forward {α : Type} (data : List α) (n_splits : ℤ) (is_ratio : ℚ) :
    Except RunError (List (List α × List α)) :=
  if n_splits = 0 then .error .zeroDivision
  else
    let total_len : ℤ := data.length
    let window_size := Int.fdiv total_len n_splits
    let is_size := pyTrunc ((window_size : ℚ) * is_ratio)
    let oos_size := window_size - is_size
    .ok (splitGo data window_size is_size oos_size 0 n_splits.toNat)

/-- The per-window result dict built by `optimize_window` (optimizer.py
lines 212-220); the `study` entry is represented by its trial count
`n_trials`. -/
structure WindowResult where
  window : ℕ
  best_params : Params
  is_metric : PyF
  oos_metric : PyF
  is_oos_diff : PyF
  n_trials : ℕ
deriving DecidableEq

/-- `WalkForwardOptimizer.optimize_window` (optimizer.py lines 109-220):
run `config.n_trials` trials of the in-sample objective (trial `i` driven
by `oracle i`), take the study's best parameters and value, then evaluate
the best parameters once on the out-of-sample data.  The out-of-sample
call `self.backtest_func(best_params, oos_data)` is NOT inside a
`try`/`except`, so an evaluator failure there propagates. -/
def optimize_window {α : Type} (space : ParamSpace) (config : OptimizationConfig)
    (bt : Evaluator α) (is_data oos_data : List α) (window_idx : ℕ)
    (oracle : ℕ → Trial) : Except RunError WindowResult :=
  let trials := (List.range config.n_trials).map
    (fun i => (wfSampleParams space (oracle i), wfObjective space config bt is_data (oracle i)))
  match studyBest config.direction trials with
  | none => .error (.valueError ("Record does not exist."))
  | some best =>
    match bt best.1 oos_data with
    | .error e => .error (.backtest e)
    | .ok oos_metrics =>
      let oos_value := metricsGet oos_metrics config.metric
      .ok ⟨window_idx, best.1, best.2, oos_value, pySub best.2 oos_value, config.n_trials⟩

/-- The window loop of `run_walk_forward` (optimizer.py lines 244-247):
`for i, (is_data, oos_data) in enumerate(splits)` run
`optimize_window(is_data, oos_data, i+1)`; window `i` draws its trials from
`oracle i`.  Any exception from a window aborts the loop. -/
def runWindowsLoop {α : Type} (space : ParamSpace) (config : OptimizationConfig)
    (bt : Evaluator α) (oracle : ℕ → ℕ → Trial) :
    List (List α × List α) → ℕ → Except RunError (List WindowResult)
  | [], _ => .ok []
  | (is_data, oos_data) :: rest, i =>
    match optimize_window space config bt is_data oos_data (i + 1) (oracle i) with
    | .error e => .error e
    | .ok w =>
      match runWindowsLoop space config bt oracle rest (i + 1) with
      | .error e => .error e
      | .ok ws => .ok (w :: ws)

/-- Insertion of one `(key, value)` pair into a key-sorted association
list; used to model Python's `sorted(params.items())` (distinct dict keys,
so ordering is by key). -/
def insertByKey (p : String × PValue) : Params → Params
  | [] => [p]
  | q :: qs => if p.1 ≤ q.1 then p :: q :: qs else q :: insertByKey p qs

/-- `tuple(sorted(params.items()))` (optimizer.py line 262): the canonical
key-sorted form of a parameter assignment, so that two assignments compare
equal exactly when they are equal as dicts. -/
def paramsTuple (ps : Params) : Params := ps.foldr insertByKey []

/-- One update of the `param_frequency` dict:
`param_frequency[t] = param_frequency.get(t, 0) + 1` — increment in place
if the key is present (dicts preserve insertion order), else append with
count 1. -/
def bumpFreq (l : List (Params × ℕ)) (k : Params) : List (Params × ℕ) :=
  match l with
  | [] => [(k, 1)]
  | (k', c) :: rest => if k' = k then (k', c + 1) :: rest else (k', c) :: bumpFreq rest k

/-- The `param_frequency` dict after counting all windows' parameter tuples
(optimizer.py lines 260-263), keys in first-occurrence order. -/
def paramFrequency (ks : List Params) : List (Params × ℕ) := ks.foldl bumpFreq []

/-- Python `max(items, key=lambda x: x[1])`: the first item whose second
component is maximal (`max` replaces its candidate only on strict
increase); raises `ValueError` on an empty sequence (`none`). -/
def pyMaxBySnd : List (Params × ℕ) → Option (Params × ℕ)
  | [] => none
  | x :: xs => some (xs.foldl (fun best c => if best.2 < c.2 then c else best) x)

/-- The summary dict returned by `run_walk_forward` (optimizer.py lines
268-276). -/
structure Summary where
  n_windows : ℕ
  avg_is_metric : PyF
  avg_oos_metric : PyF
  avg_is_oos_diff : PyF
  overfit_ratio : PyF
  robust_params : Params
  window_results : List WindowResult
deriving DecidableEq

/-- `WalkForwardOptimizer.run_walk_forward` (optimizer.py lines 222-290):
split, optimize every window, then aggregate: the three `np.mean`s, the
guarded `overfit_ratio`, and `robust_params` as the most frequent
key-sorted parameter tuple via `max` over the frequency dict (MLflow
logging omitted; `dict(most_common_params[0])` denotes the same mapping as
the sorted tuple itself). -/
def run_walk_forward {α : Type} (space : ParamSpace) (config : OptimizationConfig)
    (bt : Evaluator α) (oracle : ℕ → ℕ → Trial) (data : List α)
    (n_splits : ℤ) (is_ratio : ℚ) : Except RunError Summary :=
  match split_walk_forward data n_splits is_ratio with
  | .error e => .error e
  | .ok splits =>
    match runWindowsLoop space config bt oracle splits 0 with
    | .error e => .error e
    | .ok results =>
      let avg_is_metric := pyMean (results.map (fun r => r.is_metric))
      let avg_oos_metric := pyMean (results.map (fun r => r.oos_metric))
      let avg_diff := pyMean (results.map (fun r => r.is_oos_diff))
      let overfit_ratio :=
        if avg_is_metric ≠ PyF.val 0
        then pyDiv (pySub avg_is_metric avg_oos_metric) avg_is_metric
        else PyF.val 0
      let all_params := results.map (fun r => r.best_params)
      match pyMaxBySnd (paramFrequency (all_params.map paramsTuple)) with
      | none => .error (.valueError ("max() arg is an empty sequence"))
      | some most_common =>
        .ok ⟨results.length, avg_is_metric, avg_oos_metric, avg_diff,
             overfit_ratio, most_common.1, results⟩

/-- Parameter sampling of `MultiObjectiveOptimizer.optimize.objective`
(optimizer.py lines 336-349): only the `int` and `float` kinds are
handled (and without the `step` / `log` options — optuna defaults
`step = 1`, `log = False`); a `categorical` dimension is skipped
entirely. -/
def moSampleParams (space : ParamSpace) (t : Trial) : Params :=
  space.filterMap (fun p =>
    match p.2 with
    | .intC low high _ => some (p.1, .intV (t.suggest_int p.1 low high 1))
    | .floatC low high _ => some (p.1, .floatV (t.suggest_float p.1 low high false))
    | .catC _ => none)

/-- The multi-objective objective (optimizer.py lines 334-355): sample
params, run the backtest — NOT inside a `try`/`except`, so an evaluator
failure propagates — and return `tuple(metrics.get(obj, 0.0) for obj in
objectives)`. -/
def moObjective {α : Type} (space : ParamSpace) (objectives : List String)
    (bt : Evaluator α) (data : List α) (t : Trial) : Except String (List PyF) :=
  match bt (moSampleParams space t) data with
  | .ok metrics => .ok (objectives.map (metricsGet metrics))
  | .error e => .error e

/-- One recorded trial of the multi-objective study: its parameters and its
vector of objective values. -/
structure MOTrial where
  params : Params
  values : List PyF
deriving DecidableEq

/-- The trial loop of `study.optimize(objective, n_trials)` for the
multi-objective study: trial `i` is driven by `oracle i`; an exception
raised inside a trial is re-raised by `study.optimize` (optuna's default)
and aborts the run. -/
def moRunTrials {α : Type} (space : ParamSpace) (objectives : List String)
    (bt : Evaluator α) (data : List α) (oracle : ℕ → Trial) :
    List ℕ → Except RunError (List MOTrial)
  | [] => .ok []
  | i :: rest =>
    match moObjective space objectives bt data (oracle i) with
    | .error e => .error (.backtest e)
    | .ok values =>
      match moRunTrials space objectives bt data oracle rest with
      | .error e => .error e
      | .ok ts => .ok (⟨moSampleParams space (oracle i), values⟩ :: ts)

/-- Is value `x` no worse than value `y` under a direction, with Python
float comparison (`nan` incomparable)? -/
def noWorse (dir : String) (x y : PyF) : Bool :=
  if dir = "maximize" then pyLe y x else pyLe x y

/-- Is value `x` strictly better than value `y` under a direction? -/
def strictlyBetter (dir : String) (x y : PyF) : Bool :=
  if dir = "maximize" then pyLt y x else pyLt x y

/-- Modelled from the spec: the dominance rule of `study.best_trials`
(optuna, not part of src) — trial values `a` dominate trial values `b` iff
for every objective index `a` is no worse than `b` under that objective's
direction and `a` is strictly better on at least one objective. -/
def dominates (dirs : List String) (a b : List PyF) : Bool :=
  ((List.range dirs.length).all
    (fun i => noWorse (dirs.getD i ("")) (a.getD i .nan) (b.getD i .nan))) &&
  ((List.range dirs.length).any
    (fun i => strictlyBetter (dirs.getD i ("")) (a.getD i .nan) (b.getD i .nan)))

/-- Modelled from the spec: `study.best_trials` (optuna, not part of src) —
the subset of the trial history not dominated by any trial in the
history. -/
def paretoFront (dirs : List String) (history : List MOTrial) : List MOTrial :=
  history.filter (fun t => !(history.any (fun u => dominates dirs u.values t.values)))

/-- The result dict of `MultiObjectiveOptimizer.optimize` (optimizer.py
lines 380-384); the `study` entry is represented by its full trial
history. -/
structure MOResult where
  n_solutions : ℕ
  pareto_trials : List MOTrial
  study_trials : List MOTrial
deriving DecidableEq

/-- `MultiObjectiveOptimizer.optimize` (optimizer.py lines 327-384): run
`n_trials` trials (each calling the evaluator, with no validation that
`objectives` and `directions` have equal length), collect the Pareto-front
trials, and return them (MLflow logging omitted). -/
def moOptimize {α : Type} (space : ParamSpace) (objectives directions : List String)
    (bt : Evaluator α) (data : List α) (oracle : ℕ → Trial) (n_trials : ℕ) :
    Except RunError MOResult :=
  match moRunTrials space objectives bt data oracle (List.range n_trials) with
  | .error e => .error e
  | .ok trials =>
    let pareto := paretoFront directions trials
    .ok ⟨pareto.length, pareto, trials⟩

/-! ### Shared concrete instances used by witnesses and counterexamples -/

/-- A one-dimensional integer search space. -/
def exSpace : ParamSpace := [("x", ParamConfig.intC 1 5 none)]

/-- A deterministic suggestion oracle: always proposes the lower bound /
the first choice. -/
def exTrial : Trial :=
  ⟨fun _ lo _ _ => lo, fun _ lo _ _ => lo, fun _ cs => cs.headD ("")⟩

/-- A one-trial maximize configuration targeting metric `"m"`. -/
def exConfigMax : OptimizationConfig := ⟨1, 4, none, "maximize", "m", none, none⟩

/-- The per-window, per-trial oracle used by example runs. -/
def exOracle2 : ℕ → ℕ → Trial := fun _ _ => exTrial

/-- An evaluator that always succeeds with metric `m = 1.0`. -/
def okEvaluator : Evaluator ℤ := fun _ _ => .ok [("m", PyF.val 1)]

/-- An evaluator that always raises. -/
def failEvaluator : Evaluator ℤ := fun _ _ => .error ("boom")

/-- A ten-row dataset. -/
def exData : List ℤ := [0, 1, 2, 3, 4, 5, 6, 7, 8, 9]

/-! ### Window-splitting lemmas -/

lemma pySlice_zero_zero {α : Type} (xs : List α) : pySlice xs 0 0 = [] := by
  simp [pySlice, pySliceIdx]

lemma splitGo_zero {α : Type} (data : List α) :
    ∀ (m i : ℕ), splitGo data 0 0 0 i m = List.replicate m ([], []) := by
  intro m
  induction m with
  | zero => intro i; rfl
  | succ k ih =>
    intro i
    have hmin : min (0 : ℤ) (data.length : ℤ) = 0 := min_eq_left (by positivity)
    simp only [splitGo, mul_zero, add_zero, hmin, pySlice_zero_zero,
      ih (i + 1), List.replicate_succ, gt_iff_lt]
    rw [if_neg (by omega)]

/-- Evaluation of `split_walk_forward` on a dataset smaller than the split
count: `window_size` floors to `0`, so every one of the `n_splits` windows
consists of two empty slices. -/
lemma split_walk_forward_small {α : Type} (data : List α) (n : ℤ) (r : ℚ)
    (h0 : 0 < n) (h : (data.length : ℤ) < n) :
    split_walk_forward data n r = .ok (List.replicate n.toNat ([], [])) := by
  have hne : n ≠ 0 := ne_of_gt h0
  have hw : Int.fdiv (data.length : ℤ) n = 0 := by
    obtain ⟨k, rfl⟩ : ∃ k : ℕ, n = (k : ℤ) := ⟨n.toNat, (Int.toNat_of_nonneg h0.le).symm⟩
    rw [← Int.ofNat_fdiv]
    have : data.length < k := by exact_mod_cast h
    simp [Nat.div_eq_of_lt this]
  have htr : pyTrunc (((0 : ℤ) : ℚ) * r) = 0 := by
    norm_num [pyTrunc]
  simp only [split_walk_forward, if_neg hne, hw, htr, sub_zero]
  rw [splitGo_zero]

/-- C3 (amended): the window-splitting operation performs no
`InvalidWindowConfig` validation at all.  `n_splits = 0` fails with
Python's `ZeroDivisionError`; a negative `n_splits` returns an empty
window list without raising; empty input data returns `n_splits` windows
of empty slices without raising (and an `in_sample_ratio` outside `(0,1)`
is likewise never rejected: the empty-data case holds for every ratio). -/
theorem split_no_config_validation :
    (∀ (data : List ℤ) (r : ℚ), split_walk_forward data 0 r = .error .zeroDivision)
    ∧ (∀ (data : List ℤ) (n : ℤ) (r : ℚ), n < 0 → split_walk_forward data n r = .ok [])
    ∧ (∀ (n : ℤ) (r : ℚ), 0 < n →
        split_walk_forward ([] : List ℤ) n r = .ok (List.replicate n.toNat ([], []))) := by
  refine ⟨fun data r => by simp [split_walk_forward], fun data n r hn => ?_, fun n r hn => ?_⟩
  · have hne : n ≠ 0 := ne_of_lt hn
    simp only [split_walk_forward, if_neg hne, Int.toNat_of_nonpos hn.le]
    rfl
  · exact split_walk_forward_small [] n r hn (by simpa using hn)

/-- C3 (counterexample): on empty data the splitter does not fail with
`InvalidWindowConfig` (or anything else) — it returns three windows of
empty slices. -/
theorem split_empty_data_cx :
    split_walk_forward ([] : List ℤ) 3 (7/10) = .ok (List.replicate 3 ([], [])) :=
  split_walk_forward_small [] 3 (7/10) (by norm_num) (by norm_num)

/-- C3 (witness): the amended theorem at concrete inputs. -/
theorem split_no_config_validation_witness :
    split_walk_forward [(5 : ℤ)] (-1) (1/2) = .ok [] :=
  split_no_config_validation.2.1 [5] (-1) (1/2) (by norm_num)

/-- C4 (amended): for every dataset with `len(data) < n_splits` (and
`n_splits >= 1`), the window-splitting operation never raises but returns
exactly `n_splits` windows, every one of them a fabricated pair of empty
slices — not fewer than `n_splits` windows. -/
theorem split_small_dataset (data : List ℤ) (n : ℤ) (r : ℚ)
    (h1 : 1 ≤ n) (h : (data.length : ℤ) < n) :
    split_walk_forward data n r = .ok (List.replicate n.toNat ([], []))
    ∧ (List.replicate n.toNat (([] : List ℤ), ([] : List ℤ))).length = n.toNat :=
  ⟨split_walk_forward_small data n r h1 h, List.length_replicate _ _⟩

/-- C4 (counterexample): at `data = [0]`, `n_splits = 2` the claim fails:
the splitter returns two (not fewer than two) windows, and both are empty
windows. -/
theorem split_small_dataset_cx :
    ¬ (∀ ws : List (List ℤ × List ℤ),
        split_walk_forward [(0 : ℤ)] 2 (7/10) = .ok ws →
        ws.length < 2 ∧ ([], []) ∉ ws) := by
  intro hclaim
  have hev : split_walk_forward [(0 : ℤ)] 2 (7/10) =
      .ok (List.replicate 2 (([] : List ℤ), ([] : List ℤ))) :=
    split_walk_forward_small [0] 2 (7/10) (by norm_num) (by norm_num)
  have := hclaim _ hev
  simp at this

/-- C4 (witness): the amended theorem at concrete inputs. -/
theorem split_small_dataset_witness :
    split_walk_forward [(0 : ℤ), 1] 3 (7/10) = .ok (List.replicate (3 : ℤ).toNat ([], [])) :=
  (split_small_dataset [0, 1] 3 (7/10) (by norm_num) (by norm_num)).1

/-- C5 (amended): if the splitter yields zero windows, `run_walk_forward`
does not fail with a dedicated `NoWindowsProduced` error — no such error
exists in the code.  The aggregation step crashes with Python's
`ValueError` from `max()` over the empty parameter-frequency dict (after
`np.mean` of the empty result lists silently produced `nan`); no summary
is produced. -/
theorem run_zero_windows_value_error {α : Type} (space : ParamSpace)
    (config : OptimizationConfig) (bt : Evaluator α) (oracle : ℕ → ℕ → Trial)
    (data : List α) (n : ℤ) (r : ℚ)
    (h : split_walk_forward data n r = .ok []) :
    run_walk_forward space config bt oracle data n r =
      .error (.valueError ("max() arg is an empty sequence")) := by
  simp only [run_walk_forward, h]
  rfl

/-- C5 (counterexample): a run over zero windows (`n_splits = -1` yields an
empty window list) fails with the generic `ValueError` of `max()` on an
empty sequence, not with a `NoWindowsProduced` error. -/
theorem run_zero_windows_cx :
    run_walk_forward exSpace exConfigMax okEvaluator exOracle2 exData (-1) (1/2) =
      .error (.valueError ("max() arg is an empty sequence")) := by
  rfl

/-- C5 (witness): the amended theorem at concrete inputs. -/
theorem run_zero_windows_value_error_witness :
    run_walk_forward exSpace exConfigMax okEvaluator exOracle2 exData (-2) (1/2) =
      .error (.valueError ("max() arg is an empty sequence")) :=
  run_zero_windows_value_error exSpace exConfigMax okEvaluator exOracle2 exData (-2) (1/2) rfl

/-! ### Evaluator-failure scope (walk-forward vs multi-objective vs OOS) -/

/-- Evaluation of the splitter on the ten-row dataset with one window and
ratio `0.7`: the single window is rows `0..6` in-sample, `7..9`
out-of-sample. -/
lemma exSplit_eval :
    split_walk_forward exData 1 (7/10) =
      .ok [([0, 1, 2, 3, 4, 5, 6], [7, 8, 9])] := by
  have h1 : Int.fdiv ((exData.length : ℤ)) 1 = 10 := by decide
  have h2 : pyTrunc (((10 : ℤ) : ℚ) * (7/10)) = 7 := by
    have : (((10 : ℤ) : ℚ)) * (7/10) = ((7 : ℤ) : ℚ) := by norm_num
    rw [pyTrunc, this, if_pos (by positivity), Int.floor_intCast]
  simp only [split_walk_forward, if_neg (by norm_num : (1 : ℤ) ≠ 0), h1, h2]
  norm_num
  decide

/-- C1 (amended): an evaluator failure is recovered locally only inside the
in-sample trial objective of the walk-forward loop, where the
worst-possible objective value is substituted (`-inf` for maximize, `+inf`
for minimize).  The two other evaluator call sites have no handler: a
failing trial of the multi-objective loop propagates the evaluator's
exception, and so does the single out-of-sample evaluation of a window's
best parameters — both are fatal to their run. -/
theorem evaluator_failure_scope (α : Type) :
    (∀ (space : ParamSpace) (config : OptimizationConfig) (bt : Evaluator α)
        (dat : List α) (t : Trial) (e : String),
      bt (wfSampleParams space t) dat = .error e →
      wfObjective space config bt dat t =
        (if config.direction = "maximize" then PyF.ninf else PyF.inf))
    ∧ (∀ (space : ParamSpace) (objectives : List String) (bt : Evaluator α)
        (dat : List α) (t : Trial) (e : String),
      bt (moSampleParams space t) dat = .error e →
      moObjective space objectives bt dat t = .error e)
    ∧ (∀ (space : ParamSpace) (config : OptimizationConfig) (bt : Evaluator α)
        (is_data oos_data : List α) (idx : ℕ) (oracle : ℕ → Trial)
        (best : Params × PyF) (e : String),
      studyBest config.direction ((List.range config.n_trials).map
        (fun i => (wfSampleParams space (oracle i),
          wfObjective space config bt is_data (oracle i)))) = some best →
      bt best.1 oos_data = .error e →
      optimize_window space config bt is_data oos_data idx oracle =
        .error (.backtest e)) := by
  refine ⟨fun space config bt dat t e h => ?_, fun space objectives bt dat t e h => ?_,
    fun space config bt is_data oos_data idx oracle best e hstudy hbt => ?_⟩
  · simp only [wfObjective, h]
  · simp only [moObjective, h]
  · simp only [optimize_window, hstudy, hbt]

/-- C1 (counterexample): with an evaluator that raises on every call, the
walk-forward run is aborted by the unguarded out-of-sample evaluation —
the evaluator failure IS fatal to the run. -/
theorem run_fatal_on_evaluator_failure_cx :
    run_walk_forward exSpace exConfigMax failEvaluator exOracle2 exData 1 (7/10) =
      .error (.backtest ("boom")) := by
  simp only [run_walk_forward, exSplit_eval]
  rfl

/-- C1 (witness): the amended theorem at concrete inputs. -/
theorem evaluator_failure_scope_witness :
    wfObjective exSpace exConfigMax failEvaluator exData exTrial =
      (if exConfigMax.direction = "maximize" then PyF.ninf else PyF.inf)
    ∧ moObjective exSpace ["m"] failEvaluator exData exTrial = .error ("boom")
    ∧ optimize_window exSpace exConfigMax failEvaluator exData exData 1 (fun _ => exTrial) =
        .error (.backtest ("boom")) :=
  ⟨(evaluator_failure_scope ℤ).1 exSpace exConfigMax failEvaluator exData exTrial ("boom") rfl,
   (evaluator_failure_scope ℤ).2.1 exSpace ["m"] failEvaluator exData exTrial ("boom") rfl,
   (evaluator_failure_scope ℤ).2.2 exSpace exConfigMax failEvaluator exData exData 1
     (fun _ => exTrial) (wfSampleParams exSpace exTrial, PyF.ninf) ("boom") rfl rfl⟩

/-! ### Missing-metric defaults -/

/-- The metric mapping's `get` with default: an absent key yields `0.0`. -/
lemma metricsGet_of_absent (m : Metrics) (k : String) (h : ∀ p ∈ m, p.1 ≠ k) :
    metricsGet m k = .val 0 := by
  induction m with
  | nil => rfl
  | cons p rest ih =>
    simp only [metricsGet]
    rw [if_neg (h p (by simp))]
    exact ih (fun q hq => h q (by simp [hq]))

/-- C2 (amended): a missing metric key is NOT treated as the worst possible
value for the direction — both trial loops use `metrics.get(key, 0.0)`, so
the extracted value (and every missing component of the multi-objective
vector) defaults to `0.0`. -/
theorem missing_metric_defaults_to_zero (α : Type) :
    (∀ (space : ParamSpace) (config : OptimizationConfig) (bt : Evaluator α)
        (dat : List α) (t : Trial) (metrics : Metrics),
      bt (wfSampleParams space t) dat = .ok metrics →
      (∀ p ∈ metrics, p.1 ≠ config.metric) →
      wfObjective space config bt dat t = PyF.val 0)
    ∧ (∀ (space : ParamSpace) (objectives : List String) (bt : Evaluator α)
        (dat : List α) (t : Trial) (metrics : Metrics),
      bt (moSampleParams space t) dat = .ok metrics →
      (∀ p ∈ metrics, ∀ o ∈ objectives, p.1 ≠ o) →
      moObjective space objectives bt dat t =
        .ok (objectives.map (fun _ => PyF.val 0))) := by
  constructor
  · intro space config bt dat t metrics h habs
    simp only [wfObjective, h]
    exact metricsGet_of_absent metrics config.metric habs
  · intro space objectives bt dat t metrics h habs
    simp only [moObjective, h, Except.ok.injEq]
    induction objectives with
    | nil => rfl
    | cons o os ih =>
      simp only [List.map_cons, List.cons.injEq]
      refine ⟨metricsGet_of_absent metrics o (fun p hp => habs p hp o (by simp)), ?_⟩
      exact ih (fun p hp o' ho' => habs p hp o' (by simp [ho']))

/-- C2 (counterexample): with a maximize direction and an evaluator result
lacking the selected key, the extracted value is `0.0`, not `-inf`; and the
multi-objective vector for two missing objectives is `(0.0, 0.0)`, not the
per-direction worst values. -/
theorem missing_metric_defaults_cx :
    wfObjective exSpace exConfigMax (fun _ _ => .ok []) exData exTrial = PyF.val 0
    ∧ PyF.val 0 ≠ PyF.ninf
    ∧ moObjective exSpace ["a", "b"] (fun _ _ => .ok []) exData exTrial =
        .ok [PyF.val 0, PyF.val 0] :=
  ⟨rfl, by decide, rfl⟩

/-- C2 (witness): the amended theorem at concrete inputs. -/
theorem missing_metric_defaults_to_zero_witness :
    wfObjective exSpace exConfigMax (fun _ _ => .ok [("other", PyF.val 5)]) exData exTrial =
      PyF.val 0
    ∧ moObjective exSpace ["a"] (fun _ _ => .ok [("other", PyF.val 5)]) exData exTrial =
        .ok [PyF.val 0] :=
  ⟨(missing_metric_defaults_to_zero ℤ).1 exSpace exConfigMax
      (fun _ _ => .ok [("other", PyF.val 5)]) exData exTrial
      [("other", PyF.val 5)] rfl (by decide),
   by
    have := (missing_metric_defaults_to_zero ℤ).2 exSpace ["a"]
      (fun _ _ => .ok [("other", PyF.val 5)]) exData exTrial
      [("other", PyF.val 5)] rfl (by decide)
    simpa using this⟩

/-! ### Objective/direction length mismatch -/

/-- C7 (amended): `MultiObjectiveOptimizer` performs no length validation of
`objectives` against `directions` at all — no `ObjectiveDirectionMismatch`
error exists.  Even with mismatched lengths, `optimize` proceeds straight
into the trial loop and calls the evaluator; here the evaluator's own
failure surfaces (as a propagated backtest exception), proving the
evaluator is reached before any mismatch could be reported. -/
theorem mo_mismatch_reaches_evaluator (α : Type) (space : ParamSpace)
    (objectives directions : List String) (data : List α) (oracle : ℕ → Trial)
    (n : ℕ) (msg : String)
    (_hlen : objectives.length ≠ directions.length) (hn : 0 < n) :
    moOptimize space objectives directions (fun _ _ => .error msg) data oracle n =
      .error (.backtest msg) := by
  obtain ⟨m, rfl⟩ := Nat.exists_eq_succ_of_ne_zero hn.ne'
  simp only [moOptimize, List.range_succ_eq_map, moRunTrials, moObjective]

/-- C7 (counterexample): with two objectives but one direction, the run is
not rejected with `ObjectiveDirectionMismatch` before any evaluator call —
the evaluator is called and its exception is what surfaces. -/
theorem mo_mismatch_cx :
    moOptimize exSpace ["a", "b"] ["maximize"] failEvaluator exData (fun _ => exTrial) 1 =
      .error (.backtest ("boom")) := by
  rfl

/-- C7 (witness): the amended theorem at concrete inputs. -/
theorem mo_mismatch_reaches_evaluator_witness :
    moOptimize exSpace ["a", "b"] ["maximize"] (fun _ _ => .error ("boom")) exData
      (fun _ => exTrial) 2 = .error (.backtest ("boom")) :=
  mo_mismatch_reaches_evaluator ℤ exSpace ["a", "b"] ["maximize"] exData
    (fun _ => exTrial) 2 ("boom") (by decide) (by decide)

/-! ### Categorical parameters in the multi-objective sampler -/

/-- In an association list with nodup keys, a key determines its value. -/
lemma assoc_nodup_eq {β : Type} {l : List (String × β)}
    (h : (l.map Prod.fst).Nodup) {k : String} {b c : β}
    (hb : (k, b) ∈ l) (hc : (k, c) ∈ l) : b = c := by
  induction l with
  | nil => simp at hb
  | cons p rest ih =>
    rw [List.map_cons, List.nodup_cons] at h
    rcases List.mem_cons.1 hb with h1 | h1
    · rcases List.mem_cons.1 hc with h2 | h2
      · rw [← h1] at h2; exact congrArg Prod.snd h2.symm
      · rw [← h1] at h
        exact absurd (List.mem_map_of_mem Prod.fst h2) h.1
    · rcases List.mem_cons.1 hc with h2 | h2
      · rw [← h2] at h
        exact absurd (List.mem_map_of_mem Prod.fst h1) h.1
      · exact ih h.2 h1 h2

/-- C10: a `categorical` dimension of the shared parameter space is omitted
entirely from every multi-objective sampled assignment (the per-trial
sampler there handles only `int` and `float`, passing optuna's default
`step = 1` and `log = False` and thus ignoring those options), while the
walk-forward sampler does include the categorical dimension. -/
theorem mo_sampler_omits_categorical (space : ParamSpace) (t : Trial)
    (name : String) (choices : List String)
    (hmem : (name, ParamConfig.catC choices) ∈ space)
    (hnodup : (space.map Prod.fst).Nodup) :
    (∀ v : PValue, (name, v) ∉ moSampleParams space t)
    ∧ (name, PValue.catV (t.suggest_categorical name choices)) ∈ wfSampleParams space t
    ∧ (∀ (n : String) (lo hi : ℤ) (st : Option ℤ), (n, ParamConfig.intC lo hi st) ∈ space →
        (n, PValue.intV (t.suggest_int n lo hi 1)) ∈ moSampleParams space t)
    ∧ (∀ (n : String) (lo hi : ℚ) (lg : Option Bool), (n, ParamConfig.floatC lo hi lg) ∈ space →
        (n, PValue.floatV (t.suggest_float n lo hi false)) ∈ moSampleParams space t) := by
  refine ⟨?_, ?_, ?_, ?_⟩
  · intro v hv
    rcases List.mem_filterMap.1 hv with ⟨p, hp, hf⟩
    rcases p with ⟨pn, cfg⟩
    cases cfg with
    | intC lo hi st =>
      simp only [Option.some.injEq, Prod.mk.injEq] at hf
      obtain ⟨h1, -⟩ := hf
      subst h1
      exact absurd (assoc_nodup_eq hnodup hmem hp) (by simp)
    | floatC lo hi lg =>
      simp only [Option.some.injEq, Prod.mk.injEq] at hf
      obtain ⟨h1, -⟩ := hf
      subst h1
      exact absurd (assoc_nodup_eq hnodup hmem hp) (by simp)
    | catC cs => simp at hf
  · exact List.mem_map.2 ⟨(name, ParamConfig.catC choices), hmem, rfl⟩
  · intro n lo hi st h
    exact List.mem_filterMap.2 ⟨(n, ParamConfig.intC lo hi st), h, rfl⟩
  · intro n lo hi lg h
    exact List.mem_filterMap.2 ⟨(n, ParamConfig.floatC lo hi lg), h, rfl⟩

/-- A three-kind example space for the categorical-omission witness. -/
def exSpaceC : ParamSpace :=
  [("c", ParamConfig.catC ["left", "right"]), ("i", ParamConfig.intC 0 5 (some 2)),
   ("f", ParamConfig.floatC 0 1 (some true))]

/-- C10 (witness): the theorem at a concrete three-dimensional space. -/
theorem mo_sampler_omits_categorical_witness :
    (("c", PValue.catV ("left")) ∉ moSampleParams exSpaceC exTrial)
    ∧ ("c", PValue.catV (exTrial.suggest_categorical ("c") ["left", "right"])) ∈
        wfSampleParams exSpaceC exTrial :=
  ⟨(mo_sampler_omits_categorical exSpaceC exTrial ("c") ["left", "right"]
      (by decide) (by decide)).1 (PValue.catV ("left")),
   (mo_sampler_omits_categorical exSpaceC exTrial ("c") ["left", "right"]
      (by decide) (by decide)).2.1⟩

/-! ### Python float arithmetic identities -/

lemma pyAdd_zero_left (x : PyF) : pyAdd (.val 0) x = x := by
  cases x <;> first | rfl | exact congrArg PyF.val (zero_add _)

lemma pyAdd_zero_right (x : PyF) : pyAdd x (.val 0) = x := by
  cases x <;> first | rfl | exact congrArg PyF.val (add_zero _)

lemma pyAdd_comm (x y : PyF) : pyAdd x y = pyAdd y x := by
  cases x <;> cases y <;> first | rfl | exact congrArg PyF.val (add_comm _ _)

lemma pyAdd_assoc (x y z : PyF) : pyAdd (pyAdd x y) z = pyAdd x (pyAdd y z) := by
  cases x <;> cases y <;> cases z <;> first | rfl | exact congrArg PyF.val (add_assoc _ _ _)

lemma pyNeg_pyAdd (x y : PyF) : pyNeg (pyAdd x y) = pyAdd (pyNeg x) (pyNeg y) := by
  cases x <;> cases y <;> first | rfl | exact congrArg PyF.val (neg_add _ _)

lemma pyAdd_add_add_comm (a b c d : PyF) :
    pyAdd (pyAdd a b) (pyAdd c d) = pyAdd (pyAdd a c) (pyAdd b d) := by
  rw [pyAdd_assoc, ← pyAdd_assoc b c d, pyAdd_comm b c, pyAdd_assoc c b d, ← pyAdd_assoc]

lemma pySub_pyAdd_pyAdd (x y u v : PyF) :
    pySub (pyAdd x y) (pyAdd u v) = pyAdd (pySub x u) (pySub y v) := by
  simp only [pySub, pyNeg_pyAdd]
  exact pyAdd_add_add_comm x y (pyNeg u) (pyNeg v)

lemma pyFoldl_add (l : List PyF) : ∀ x, l.foldl pyAdd x = pyAdd x (pySum l) := by
  induction l with
  | nil => intro x; exact (pyAdd_zero_right x).symm
  | cons y ys ih =>
    intro x
    have hys : pySum (y :: ys) = pyAdd y (pySum ys) := by
      simp only [pySum, List.foldl_cons, pyAdd_zero_left]
      exact ih y
    rw [List.foldl_cons, ih (pyAdd x y), hys, pyAdd_assoc]

lemma pySum_cons (x : PyF) (l : List PyF) : pySum (x :: l) = pyAdd x (pySum l) := by
  simp only [pySum, List.foldl_cons, pyAdd_zero_left]
  exact pyFoldl_add l x

lemma pySum_zipWith_sub : ∀ (a b : List PyF), a.length = b.length →
    pySum (List.zipWith pySub a b) = pySub (pySum a) (pySum b)
  | [], [], _ => by
    show PyF.val 0 = pySub (PyF.val 0) (PyF.val 0)
    show PyF.val 0 = PyF.val (0 + -0)
    norm_num
  | [], y :: ys, h => by simp at h
  | x :: xs, [], h => by simp at h
  | x :: xs, y :: ys, h => by
    have hlen : xs.length = ys.length := by simpa using h
    rw [List.zipWith_cons_cons, pySum_cons, pySum_zipWith_sub xs ys hlen,
      pySum_cons, pySum_cons, pySub_pyAdd_pyAdd]

lemma pyDiv_pySub_val (S T : PyF) (n : ℚ) (hn : 0 < n) :
    pyDiv (pySub S T) (.val n) = pySub (pyDiv S (.val n)) (pyDiv T (.val n)) := by
  have hn0 : n ≠ 0 := hn.ne'
  have hnlt : ¬ n < 0 := not_lt.2 hn.le
  cases S <;> cases T <;>
    simp [pySub, pyAdd, pyNeg, pyDiv, hn, hn0, hnlt, add_div, neg_div]

lemma pyMean_zipWith_sub (a b : List PyF) (hlen : a.length = b.length) (hne : a ≠ []) :
    pyMean (List.zipWith pySub a b) = pySub (pyMean a) (pyMean b) := by
  have hzl : (List.zipWith pySub a b).length = a.length := by
    rw [List.length_zipWith, hlen, min_self]
  have hpos : 0 < a.length := List.length_pos.2 hne
  have hbne : b ≠ [] := by
    intro hb
    rw [hb] at hlen
    exact hne (List.length_eq_zero.1 (by simpa using hlen))
  have hzne : List.zipWith pySub a b ≠ [] := by
    intro hz
    have := congrArg List.length hz
    rw [hzl] at this
    exact absurd this (by simpa using hpos.ne')
  rw [pyMean, pyMean, pyMean, if_neg (by simpa [List.isEmpty_iff] using hzne),
    if_neg (by simpa [List.isEmpty_iff] using hne),
    if_neg (by simpa [List.isEmpty_iff] using hbne),
    hzl, ← hlen, pySum_zipWith_sub a b hlen]
  exact pyDiv_pySub_val (pySum a) (pySum b) (a.length : ℚ) (by exact_mod_cast hpos)

/-! ### Shape of window results -/

lemma optimize_window_diff {α : Type} {space : ParamSpace} {config : OptimizationConfig}
    {bt : Evaluator α} {is_data oos_data : List α} {idx : ℕ} {oracle : ℕ → Trial}
    {w : WindowResult}
    (h : optimize_window space config bt is_data oos_data idx oracle = .ok w) :
    w.is_oos_diff = pySub w.is_metric w.oos_metric := by
  simp only [optimize_window] at h
  split at h
  next hst => simp at h
  next best hst =>
    split at h
    next e hbt => simp at h
    next m hbt =>
      rw [Except.ok.injEq] at h
      subst h
      rfl

lemma runWindowsLoop_diff {α : Type} {space : ParamSpace} {config : OptimizationConfig}
    {bt : Evaluator α} {oracle : ℕ → ℕ → Trial} :
    ∀ (splits : List (List α × List α)) (i : ℕ) (results : List WindowResult),
    runWindowsLoop space config bt oracle splits i = .ok results →
    ∀ w ∈ results, w.is_oos_diff = pySub w.is_metric w.oos_metric := by
  intro splits
  induction splits with
  | nil =>
    intro i results h w hw
    rw [runWindowsLoop, Except.ok.injEq] at h
    rw [← h] at hw
    simp at hw
  | cons p rest ih =>
    intro i results h w hw
    obtain ⟨is_data, oos_data⟩ := p
    rw [runWindowsLoop] at h
    split at h
    next e hopt => simp at h
    next w0 hopt =>
      split at h
      next e hrec => simp at h
      next ws hrec =>
        rw [Except.ok.injEq] at h
        rw [← h] at hw
        rcases List.mem_cons.1 hw with rfl | hw'
        · exact optimize_window_diff hopt
        · exact ih (i + 1) ws hrec w hw'

lemma map_diff_eq_zipWith {results : List WindowResult}
    (h : ∀ w ∈ results, w.is_oos_diff = pySub w.is_metric w.oos_metric) :
    results.map (fun r => r.is_oos_diff) =
      List.zipWith pySub (results.map fun r => r.is_metric)
        (results.map fun r => r.oos_metric) := by
  induction results with
  | nil => rfl
  | cons w ws ih =>
    rw [List.map_cons, List.map_cons, List.map_cons, List.zipWith_cons_cons,
      h w (by simp), ih (fun w' hw' => h w' (by simp [hw']))]

/-- C8: for every walk-forward run that returns a summary, the overfit
ratio is the average generalization gap divided by the average in-sample
metric when the latter is nonzero (the code divides the difference of the
two averages, which coincides with the average of the per-window gaps),
and is exactly `0` when the average in-sample metric is zero, regardless
of the gap. -/
theorem overfit_ratio_formula {α : Type} (space : ParamSpace)
    (config : OptimizationConfig) (bt : Evaluator α) (oracle : ℕ → ℕ → Trial)
    (data : List α) (n : ℤ) (r : ℚ) (s : Summary)
    (h : run_walk_forward space config bt oracle data n r = .ok s) :
    (s.avg_is_metric = PyF.val 0 → s.overfit_ratio = PyF.val 0)
    ∧ (s.avg_is_metric ≠ PyF.val 0 →
        s.overfit_ratio = pyDiv s.avg_is_oos_diff s.avg_is_metric) := by
  simp only [run_walk_forward] at h
  split at h
  next e hsp => simp at h
  next splits hsp =>
    split at h
    next e hloop => simp at h
    next results hloop =>
      split at h
      next hmax => simp at h
      next mc hmax =>
        rw [Except.ok.injEq] at h
        have hres : results ≠ [] := by
          intro h0
          rw [h0] at hmax
          simp [paramFrequency, pyMaxBySnd] at hmax
        have havg : pyMean (results.map fun r => r.is_oos_diff) =
            pySub (pyMean (results.map fun r => r.is_metric))
              (pyMean (results.map fun r => r.oos_metric)) := by
          rw [map_diff_eq_zipWith (runWindowsLoop_diff splits 0 results hloop)]
          exact pyMean_zipWith_sub _ _ (by simp) (by simpa using hres)
        subst h
        dsimp only
        constructor
        · intro h0
          simp [h0]
        · intro h0
          rw [if_pos h0, havg]

/-! ### A concrete successful run -/

/-- The window result of the example run: one trial, metric `1.0` in- and
out-of-sample. -/
def exWindowResult : WindowResult :=
  ⟨1, [("x", PValue.intV 1)], PyF.val 1, PyF.val 1, PyF.val 0, 1⟩

/-- The summary of the example run. -/
def exRunSummary : Summary :=
  ⟨1, PyF.val 1, PyF.val 1, PyF.val 0, PyF.val 0, [("x", PValue.intV 1)], [exWindowResult]⟩

lemma exLoop_eval :
    runWindowsLoop exSpace exConfigMax okEvaluator exOracle2
      [([0, 1, 2, 3, 4, 5, 6], [7, 8, 9])] 0 = .ok [exWindowResult] := by
  have h : pySub (PyF.val 1) (PyF.val 1) = PyF.val 0 := by
    norm_num [pySub, pyAdd, pyNeg]
  show Except.ok [(⟨1, [("x", PValue.intV 1)], PyF.val 1, PyF.val 1,
    pySub (PyF.val 1) (PyF.val 1), 1⟩ : WindowResult)] = .ok [exWindowResult]
  rw [h]
  rfl

lemma exRun_eval :
    run_walk_forward exSpace exConfigMax okEvaluator exOracle2 exData 1 (7/10) =
      .ok exRunSummary := by
  have h1 : pyMean [PyF.val 1] = PyF.val 1 := by
    norm_num [pyMean, pySum, pyDiv, pyAdd, List.foldl]
  have h0 : pyMean [PyF.val 0] = PyF.val 0 := by
    norm_num [pyMean, pySum, pyDiv, pyAdd, List.foldl]
  simp only [run_walk_forward, exSplit_eval, exLoop_eval, exWindowResult,
    List.map_cons, List.map_nil, h1, h0]
  norm_num [pySub, pyAdd, pyNeg, pyDiv, exRunSummary, exWindowResult,
    paramsTuple, insertByKey, paramFrequency, bumpFreq, pyMaxBySnd, List.foldl,
    List.foldr]

/-- C8 (witness): the overfit-ratio formula at the concrete example run. -/
theorem overfit_ratio_formula_witness :
    exRunSummary.avg_is_metric ≠ PyF.val 0
    ∧ exRunSummary.overfit_ratio =
        pyDiv exRunSummary.avg_is_oos_diff exRunSummary.avg_is_metric := by
  have hne : exRunSummary.avg_is_metric ≠ PyF.val 0 := by norm_num [exRunSummary]
  exact ⟨hne, (overfit_ratio_formula exSpace exConfigMax okEvaluator exOracle2
    exData 1 (7/10) exRunSummary exRun_eval).2 hne⟩

/-! ### Robust-parameter selection -/

/-- The key-sorted parameter tuples of a summary's windows, in window
order. -/
def windowParamKeys (s : Summary) : List Params :=
  s.window_results.map (fun w => paramsTuple w.best_params)

/-- Multiplicity of a parameter tuple in a list of tuples. -/
def tupleCount (k : Params) : List Params → ℕ
  | [] => 0
  | x :: xs => (if x = k then 1 else 0) + tupleCount k xs

/-- Index of the first occurrence of a parameter tuple (earliest window
index producing it); length of the list if absent. -/
def firstIdx (k : Params) : List Params → ℕ
  | [] => 0
  | x :: xs => if x = k then 0 else firstIdx k xs + 1

lemma tupleCount_append (k : Params) :
    ∀ (l₁ l₂ : List Params), tupleCount k (l₁ ++ l₂) = tupleCount k l₁ + tupleCount k l₂
  | [], l₂ => by simp [tupleCount]
  | x :: l₁, l₂ => by
    simp only [List.cons_append, tupleCount, List.append_eq]
    rw [tupleCount_append k l₁ l₂]
    omega

lemma tupleCount_eq_zero (k : Params) :
    ∀ (l : List Params), k ∉ l → tupleCount k l = 0
  | [], _ => rfl
  | x :: l, h => by
    rw [tupleCount, if_neg (by intro hx; exact h (hx ▸ List.mem_cons_self x l)),
      tupleCount_eq_zero k l (fun hk => h (List.mem_cons_of_mem x hk))]

lemma firstIdx_append_of_mem (k : Params) :
    ∀ (l₁ l₂ : List Params), k ∈ l₁ → firstIdx k (l₁ ++ l₂) = firstIdx k l₁
  | [], _, h => by simp at h
  | x :: l₁, l₂, h => by
    by_cases hx : x = k
    · simp [firstIdx, hx]
    · rw [List.cons_append, firstIdx, if_neg hx, firstIdx, if_neg hx,
        firstIdx_append_of_mem k l₁ l₂ (by
          rcases List.mem_cons.1 h with h1 | h1
          · exact absurd h1.symm hx
          · exact h1)]

lemma firstIdx_lt_length (k : Params) :
    ∀ (l : List Params), k ∈ l → firstIdx k l < l.length
  | [], h => by simp at h
  | x :: l, h => by
    by_cases hx : x = k
    · simp [firstIdx, hx]
    · rw [firstIdx, if_neg hx, List.length_cons]
      have hk : k ∈ l := by
        rcases List.mem_cons.1 h with h1 | h1
        · exact absurd h1.symm hx
        · exact h1
      exact Nat.succ_lt_succ (firstIdx_lt_length k l hk)

lemma firstIdx_append_self (k : Params) :
    ∀ (l : List Params), k ∉ l → firstIdx k (l ++ [k]) = l.length
  | [], _ => by simp [firstIdx]
  | x :: l, h => by
    rw [List.cons_append, firstIdx,
      if_neg (by intro hx; exact h (hx ▸ List.mem_cons_self x l)),
      firstIdx_append_self k l (fun hk => h (List.mem_cons_of_mem x hk)), List.length_cons]

lemma bumpFreq_not_mem (k : Params) :
    ∀ (l : List (Params × ℕ)), (∀ p ∈ l, p.1 ≠ k) → bumpFreq l k = l ++ [(k, 1)]
  | [], _ => rfl
  | p :: rest, h => by
    obtain ⟨k', c'⟩ := p
    simp only [bumpFreq, List.cons_append]
    rw [if_neg (h (k', c') (by simp))]
    exact congrArg (List.cons (k', c'))
      (bumpFreq_not_mem k rest (fun q hq => h q (by simp [hq])))

lemma bumpFreq_split (k : Params) (c : ℕ) :
    ∀ (l₁ l₂ : List (Params × ℕ)), (∀ p ∈ l₁, p.1 ≠ k) →
    bumpFreq (l₁ ++ (k, c) :: l₂) k = l₁ ++ (k, c + 1) :: l₂
  | [], l₂, _ => by simp [bumpFreq]
  | p :: l₁, l₂, h => by
    obtain ⟨k', c'⟩ := p
    simp only [List.cons_append, bumpFreq]
    rw [if_neg (h (k', c') (by simp))]
    exact congrArg (List.cons (k', c'))
      (bumpFreq_split k c l₁ l₂ (fun q hq => h q (by simp [hq])))

/-- Invariants of the `param_frequency` dict built over a key list `ks`:
every entry's key occurs in `ks` with the entry's count equal to its
multiplicity in `ks`; every element of `ks` has an entry; and entries are
ordered by first occurrence in `ks`. -/
lemma paramFrequency_spec (ks : List Params) :
    (∀ p ∈ paramFrequency ks, p.1 ∈ ks ∧ p.2 = tupleCount p.1 ks)
    ∧ (∀ k ∈ ks, ∃ c, (k, c) ∈ paramFrequency ks)
    ∧ (paramFrequency ks).Pairwise (fun a b => firstIdx a.1 ks < firstIdx b.1 ks) := by
  induction ks using List.reverseRecOn with
  | nil => exact ⟨by simp [paramFrequency], by simp, by simp [paramFrequency]⟩
  | append_singleton ks k ih =>
    obtain ⟨P1, P2, P3⟩ := ih
    have hfreq : paramFrequency (ks ++ [k]) = bumpFreq (paramFrequency ks) k := by
      simp [paramFrequency, List.foldl_append]
    have hidx : ∀ p : Params × ℕ, p ∈ paramFrequency ks →
        firstIdx p.1 (ks ++ [k]) = firstIdx p.1 ks := by
      intro p hp
      exact firstIdx_append_of_mem p.1 ks [k] (P1 p hp).1
    by_cases hk : k ∈ ks
    · -- the key is already counted: its (unique, first) entry is incremented
      obtain ⟨c0, hc0⟩ := P2 k hk
      obtain ⟨l₁, l₂, hsplit⟩ := List.append_of_mem hc0
      have hP3' := hsplit ▸ P3
      rw [List.pairwise_append] at hP3'
      obtain ⟨hpw₁, hpwc, hcross⟩ := hP3'
      rw [List.pairwise_cons] at hpwc
      have hl₁ : ∀ p ∈ l₁, p.1 ≠ k := by
        intro p hp hpk
        have := hcross p hp (k, c0) (by simp)
        rw [hpk] at this
        exact lt_irrefl _ this
      have hl₂ : ∀ p ∈ l₂, p.1 ≠ k := by
        intro p hp hpk
        have := hpwc.1 p hp
        rw [hpk] at this
        exact lt_irrefl _ this
      have hbump : paramFrequency (ks ++ [k]) = l₁ ++ (k, c0 + 1) :: l₂ := by
        rw [hfreq, hsplit, bumpFreq_split k c0 l₁ l₂ hl₁]
      have hc0' : c0 = tupleCount k ks := (P1 (k, c0) hc0).2
      have hcount_other : ∀ x : Params, x ≠ k →
          tupleCount x (ks ++ [k]) = tupleCount x ks := by
        intro x hx
        rw [tupleCount_append, tupleCount, tupleCount, if_neg (fun h => hx h.symm)]
        omega
      have hmem_old : ∀ p : Params × ℕ, p ∈ l₁ ∨ p ∈ l₂ → p ∈ paramFrequency ks := by
        intro p hp
        rw [hsplit]
        rcases hp with hp | hp
        · exact List.mem_append_left _ hp
        · exact List.mem_append_right _ (List.mem_cons_of_mem _ hp)
      refine ⟨?_, ?_, ?_⟩
      · intro p hp
        rw [hbump] at hp
        rcases List.mem_append.1 hp with hp | hp
        · have hold := P1 p (hmem_old p (Or.inl hp))
          exact ⟨List.mem_append_left _ hold.1,
            by rw [hold.2, hcount_other p.1 (hl₁ p hp)]⟩
        · rcases List.mem_cons.1 hp with rfl | hp
          · refine ⟨List.mem_append_left _ hk, ?_⟩
            show c0 + 1 = tupleCount k (ks ++ [k])
            rw [tupleCount_append, hc0', tupleCount, tupleCount, if_pos rfl]
          · have hold := P1 p (hmem_old p (Or.inr hp))
            exact ⟨List.mem_append_left _ hold.1,
              by rw [hold.2, hcount_other p.1 (hl₂ p hp)]⟩
      · intro x hx
        rcases List.mem_append.1 hx with hx | hx
        · by_cases hxk : x = k
          · subst hxk
            exact ⟨c0 + 1, by rw [hbump]; exact List.mem_append_right _ (by simp)⟩
          · obtain ⟨c, hc⟩ := P2 x hx
            rw [hsplit] at hc
            rcases List.mem_append.1 hc with hc | hc
            · exact ⟨c, by rw [hbump]; exact List.mem_append_left _ hc⟩
            · rcases List.mem_cons.1 hc with heq | hc
              · exact absurd (congrArg Prod.fst heq) hxk
              · exact ⟨c, by
                  rw [hbump]
                  exact List.mem_append_right _ (List.mem_cons_of_mem _ hc)⟩
        · have hxk : x = k := by simpa using hx
          subst hxk
          exact ⟨c0 + 1, by rw [hbump]; exact List.mem_append_right _ (by simp)⟩
      · rw [hbump, List.pairwise_append]
        refine ⟨?_, ?_, ?_⟩
        · refine hpw₁.imp_of_mem ?_
          intro a b ha hb hab
          rw [hidx a (hmem_old a (Or.inl ha)), hidx b (hmem_old b (Or.inl hb))]
          exact hab
        · rw [List.pairwise_cons]
          constructor
          · intro b hb
            have hrel := hpwc.1 b hb
            show firstIdx k (ks ++ [k]) < firstIdx b.1 (ks ++ [k])
            rw [firstIdx_append_of_mem k ks [k] hk, hidx b (hmem_old b (Or.inr hb))]
            exact hrel
          · refine hpwc.2.imp_of_mem ?_
            intro a b ha hb hab
            rw [hidx a (hmem_old a (Or.inr ha)), hidx b (hmem_old b (Or.inr hb))]
            exact hab
        · intro a ha b hb
          rcases List.mem_cons.1 hb with rfl | hb
          · have hrel := hcross a ha (k, c0) (by simp)
            show firstIdx a.1 (ks ++ [k]) < firstIdx k (ks ++ [k])
            rw [hidx a (hmem_old a (Or.inl ha)), firstIdx_append_of_mem k ks [k] hk]
            exact hrel
          · have hrel := hcross a ha b (List.mem_cons_of_mem _ hb)
            rw [hidx a (hmem_old a (Or.inl ha)), hidx b (hmem_old b (Or.inr hb))]
            exact hrel
    · -- a fresh key is appended with count 1
      have habs : ∀ p ∈ paramFrequency ks, p.1 ≠ k := by
        intro p hp hpk
        exact hk (hpk ▸ (P1 p hp).1)
      have hbump : paramFrequency (ks ++ [k]) = paramFrequency ks ++ [(k, 1)] := by
        rw [hfreq, bumpFreq_not_mem k _ habs]
      have hcount_other : ∀ x : Params, x ≠ k →
          tupleCount x (ks ++ [k]) = tupleCount x ks := by
        intro x hx
        rw [tupleCount_append, tupleCount, tupleCount, if_neg (fun h => hx h.symm)]
        omega
      refine ⟨?_, ?_, ?_⟩
      · intro p hp
        rw [hbump] at hp
        rcases List.mem_append.1 hp with hp | hp
        · have hold := P1 p hp
          exact ⟨List.mem_append_left _ hold.1,
            by rw [hold.2, hcount_other p.1 (habs p hp)]⟩
        · have hpk : p = (k, 1) := by simpa using hp
          subst hpk
          refine ⟨List.mem_append_right _ (by simp), ?_⟩
          show 1 = tupleCount k (ks ++ [k])
          rw [tupleCount_append, tupleCount_eq_zero k ks hk, tupleCount, tupleCount, if_pos rfl]
      · intro x hx
        rcases List.mem_append.1 hx with hx | hx
        · obtain ⟨c, hc⟩ := P2 x hx
          exact ⟨c, by rw [hbump]; exact List.mem_append_left _ hc⟩
        · have hxk : x = k := by simpa using hx
          subst hxk
          exact ⟨1, by rw [hbump]; exact List.mem_append_right _ (by simp)⟩
      · rw [hbump, List.pairwise_append]
        refine ⟨?_, by simp, ?_⟩
        · refine P3.imp_of_mem ?_
          intro a b ha hb hab
          rw [hidx a ha, hidx b hb]
          exact hab
        · intro a ha b hb
          have hbk : b = (k, 1) := by simpa using hb
          subst hbk
          show firstIdx a.1 (ks ++ [k]) < firstIdx k (ks ++ [k])
          rw [hidx a ha, firstIdx_append_self k ks hk]
          exact firstIdx_lt_length a.1 ks (P1 a ha).1

/-- The fold performed by Python `max(..., key=lambda x: x[1])` returns the
first item of maximal second component: everything strictly before the
result is strictly smaller, everything after is no larger. -/
lemma foldlMax_split :
    ∀ (xs : List (Params × ℕ)) (x : Params × ℕ),
    ∃ l₁ l₂, x :: xs = l₁ ++ (xs.foldl (fun best c => if best.2 < c.2 then c else best) x) :: l₂
      ∧ (∀ y ∈ l₁, y.2 < (xs.foldl (fun best c => if best.2 < c.2 then c else best) x).2)
      ∧ (∀ y ∈ l₂, y.2 ≤ (xs.foldl (fun best c => if best.2 < c.2 then c else best) x).2)
  | [], x => ⟨[], [], rfl, by simp, by simp⟩
  | c :: xs, x => by
    by_cases hc : x.2 < c.2
    · obtain ⟨l₁, l₂, hsplit, hlt, hle⟩ := foldlMax_split xs c
      have hfold : (c :: xs).foldl (fun best c => if best.2 < c.2 then c else best) x =
          xs.foldl (fun best c => if best.2 < c.2 then c else best) c := by
        rw [List.foldl_cons, if_pos hc]
      refine ⟨x :: l₁, l₂, ?_, ?_, ?_⟩
      · rw [hfold, List.cons_append, ← hsplit]
      · intro y hy
        rw [hfold]
        rcases List.mem_cons.1 hy with rfl | hy
        · -- the head is strictly below the new running candidate, hence below the result
          rcases l₁ with _ | ⟨z, l₁⟩
          · have hcr : c = xs.foldl (fun best c => if best.2 < c.2 then c else best) c := by
              simpa using congrArg (fun l => l.headD c) hsplit
            rw [← hcr]
            exact hc
          · have hz : c = z := by
              simpa using congrArg (fun l => l.headD c) hsplit
            have h0 := hlt z (by simp)
            rw [← hz] at h0
            exact hc.trans h0
        · exact hlt y hy
      · intro y hy
        rw [hfold]
        exact hle y hy
    · obtain ⟨l₁, l₂, hsplit, hlt, hle⟩ := foldlMax_split xs x
      have hfold : (c :: xs).foldl (fun best c => if best.2 < c.2 then c else best) x =
          xs.foldl (fun best c => if best.2 < c.2 then c else best) x := by
        rw [List.foldl_cons, if_neg hc]
      rcases l₁ with _ | ⟨z, l₁⟩
      · -- the running candidate x is itself the result; c slots in just after it
        have hx : x = xs.foldl (fun best c => if best.2 < c.2 then c else best) x := by
          simpa using congrArg (fun l => l.headD x) hsplit
        refine ⟨[], c :: xs, ?_, by simp, ?_⟩
        · rw [List.nil_append, hfold, ← hx]
        · intro y hy
          rw [hfold]
          rcases List.mem_cons.1 hy with rfl | hy
          · rw [← hx]; exact not_lt.1 hc
          · -- y sits in the tail xs = l₂ of the recursive split
            have hxs : xs = l₂ := by
              simpa using congrArg List.tail hsplit
            exact hle y (hxs ▸ hy)
      · have hz : x = z := by
          simpa using congrArg (fun l => l.headD x) hsplit
        have hzlt : x.2 < (xs.foldl (fun best c => if best.2 < c.2 then c else best) x).2 := by
          have h0 := hlt z (by simp)
          rw [← hz] at h0
          exact h0
        have htail : xs = l₁ ++ (xs.foldl (fun best c => if best.2 < c.2 then c else best) x) :: l₂ := by
          simpa using congrArg List.tail hsplit
        refine ⟨x :: c :: l₁, l₂, ?_, ?_, ?_⟩
        · rw [hfold, List.cons_append, List.cons_append, ← htail]
        · intro y hy
          rw [hfold]
          rcases List.mem_cons.1 hy with rfl | hy
          · exact hzlt
          · rcases List.mem_cons.1 hy with rfl | hy
            · exact lt_of_le_of_lt (not_lt.1 hc) hzlt
            · exact hlt y (by simp [hy])
        · intro y hy
          rw [hfold]
          exact hle y hy

lemma pyMaxBySnd_spec (l : List (Params × ℕ)) (r : Params × ℕ)
    (h : pyMaxBySnd l = some r) :
    ∃ l₁ l₂, l = l₁ ++ r :: l₂ ∧ (∀ y ∈ l₁, y.2 < r.2) ∧ (∀ y ∈ l₂, y.2 ≤ r.2) := by
  cases l with
  | nil => simp [pyMaxBySnd] at h
  | cons x xs =>
    rw [pyMaxBySnd, Option.some.injEq] at h
    exact h ▸ foldlMax_split xs x

/-- C9: for every walk-forward run that returns a summary, `robust_params`
is the key-sorted parameter tuple of maximal multiplicity among all
windows' best parameters (grouped by exact equality of the full tuple),
and among equally frequent tuples it is the one first produced at the
earliest window index. -/
theorem robust_params_most_frequent {α : Type} (space : ParamSpace)
    (config : OptimizationConfig) (bt : Evaluator α) (oracle : ℕ → ℕ → Trial)
    (data : List α) (n : ℤ) (r : ℚ) (s : Summary)
    (h : run_walk_forward space config bt oracle data n r = .ok s) :
    s.robust_params ∈ windowParamKeys s
    ∧ ∀ k ∈ windowParamKeys s,
        tupleCount k (windowParamKeys s) ≤ tupleCount s.robust_params (windowParamKeys s)
        ∧ (tupleCount k (windowParamKeys s) = tupleCount s.robust_params (windowParamKeys s) →
            firstIdx s.robust_params (windowParamKeys s) ≤ firstIdx k (windowParamKeys s)) := by
  simp only [run_walk_forward] at h
  split at h
  next e hsp => simp at h
  next splits hsp =>
    split at h
    next e hloop => simp at h
    next results hloop =>
      split at h
      next hmax => simp at h
      next mc hmax =>
        rw [Except.ok.injEq] at h
        subst h
        rw [List.map_map] at hmax
        simp only [Function.comp_def] at hmax
        dsimp only [windowParamKeys]
        set ks := results.map (fun w => paramsTuple w.best_params) with hks
        obtain ⟨P1, P2, P3⟩ := paramFrequency_spec ks
        obtain ⟨l₁, l₂, hsplit, hlt, hle⟩ := pyMaxBySnd_spec _ mc hmax
        have hmc_mem : mc ∈ paramFrequency ks := by
          rw [hsplit]
          exact List.mem_append_right _ (by simp)
        have hmc := P1 mc hmc_mem
        refine ⟨hmc.1, ?_⟩
        intro k hk
        obtain ⟨c, hc⟩ := P2 k hk
        have hkc := P1 (k, c) hc
        have hcount : c = tupleCount k ks := hkc.2
        have hub : c ≤ mc.2 := by
          rw [hsplit] at hc
          rcases List.mem_append.1 hc with hc | hc
          · exact le_of_lt (hlt (k, c) hc)
          · rcases List.mem_cons.1 hc with heq | hc
            · exact le_of_eq (congrArg Prod.snd heq)
            · exact hle (k, c) hc
        constructor
        · rw [← hcount, ← hmc.2]
          exact hub
        · intro heq
          rw [hsplit] at hc
          rcases List.mem_append.1 hc with hc | hc
          · exact absurd (hcount.trans (heq.trans hmc.2.symm))
              (ne_of_lt (hlt (k, c) hc))
          · rcases List.mem_cons.1 hc with heq2 | hc
            · rw [← (congrArg Prod.fst heq2 : k = mc.1)]
            · have hP3 := hsplit ▸ P3
              rw [List.pairwise_append, List.pairwise_cons] at hP3
              exact le_of_lt (hP3.2.1.1 (k, c) hc)

/-- C9 (witness): the theorem at the concrete example run. -/
theorem robust_params_most_frequent_witness :
    exRunSummary.robust_params ∈ windowParamKeys exRunSummary :=
  (robust_params_most_frequent exSpace exConfigMax okEvaluator exOracle2
    exData 1 (7/10) exRunSummary exRun_eval).1

/-! ### Dominance and the Pareto front -/

lemma pyLt_irrefl (x : PyF) : pyLt x x = false := by
  cases x <;> first | rfl | exact decide_eq_false (lt_irrefl _)

lemma pyLe_trans : ∀ {a b c : PyF}, pyLe a b = true → pyLe b c = true → pyLe a c = true := by
  intro a b c h1 h2
  cases a <;> cases b <;> cases c <;>
    first
      | rfl
      | exact Bool.noConfusion h1
      | exact Bool.noConfusion h2
      | exact decide_eq_true (le_trans (of_decide_eq_true h1) (of_decide_eq_true h2))

lemma pyLt_of_pyLe_of_pyLt : ∀ {a b c : PyF},
    pyLe a b = true → pyLt b c = true → pyLt a c = true := by
  intro a b c h1 h2
  cases a <;> cases b <;> cases c <;>
    first
      | rfl
      | exact Bool.noConfusion h1
      | exact Bool.noConfusion h2
      | exact decide_eq_true (lt_of_le_of_lt (of_decide_eq_true h1) (of_decide_eq_true h2))

lemma pyLt_of_pyLt_of_pyLe : ∀ {a b c : PyF},
    pyLt a b = true → pyLe b c = true → pyLt a c = true := by
  intro a b c h1 h2
  cases a <;> cases b <;> cases c <;>
    first
      | rfl
      | exact Bool.noConfusion h1
      | exact Bool.noConfusion h2
      | exact decide_eq_true (lt_of_lt_of_le (of_decide_eq_true h1) (of_decide_eq_true h2))

lemma noWorse_trans {d : String} {x y z : PyF}
    (h1 : noWorse d x y = true) (h2 : noWorse d y z = true) : noWorse d x z = true := by
  unfold noWorse at *
  by_cases hd : d = "maximize"
  · rw [if_pos hd] at *
    exact pyLe_trans h2 h1
  · rw [if_neg hd] at *
    exact pyLe_trans h1 h2

lemma strictlyBetter_of_noWorse_of_strictlyBetter {d : String} {x y z : PyF}
    (h1 : noWorse d x y = true) (h2 : strictlyBetter d y z = true) :
    strictlyBetter d x z = true := by
  unfold noWorse strictlyBetter at *
  by_cases hd : d = "maximize"
  · rw [if_pos hd] at *
    exact pyLt_of_pyLt_of_pyLe h2 h1
  · rw [if_neg hd] at *
    exact pyLt_of_pyLe_of_pyLt h1 h2

lemma strictlyBetter_irrefl (d : String) (x : PyF) : strictlyBetter d x x = false := by
  unfold strictlyBetter
  by_cases hd : d = "maximize"
  · rw [if_pos hd]; exact pyLt_irrefl x
  · rw [if_neg hd]; exact pyLt_irrefl x

lemma dominates_irrefl (dirs : List String) (a : List PyF) :
    dominates dirs a a = false := by
  unfold dominates
  rw [Bool.and_eq_false_iff]
  right
  rw [List.any_eq_false]
  intro i _
  rw [Bool.not_eq_true]
  exact strictlyBetter_irrefl _ _

lemma dominates_trans {dirs : List String} {a b c : List PyF}
    (h1 : dominates dirs a b = true) (h2 : dominates dirs b c = true) :
    dominates dirs a c = true := by
  unfold dominates at *
  rw [Bool.and_eq_true] at h1 h2
  rw [Bool.and_eq_true]
  rw [List.all_eq_true] at *
  constructor
  · intro i hi
    exact noWorse_trans (h1.1 i hi) (h2.1 i hi)
  · rw [List.any_eq_true] at *
    obtain ⟨i, hi, hsb⟩ := h2.2
    exact ⟨i, hi, strictlyBetter_of_noWorse_of_strictlyBetter (h1.1 i hi) hsb⟩

lemma length_filter_mono {β : Type} (l : List β) (p q : β → Bool)
    (h : ∀ x ∈ l, p x = true → q x = true) :
    (l.filter p).length ≤ (l.filter q).length := by
  induction l with
  | nil => simp
  | cons a as ih =>
    have ih' := ih (fun x hx => h x (by simp [hx]))
    by_cases hp : p a = true
    · rw [List.filter_cons_of_pos hp, List.filter_cons_of_pos (h a (by simp) hp)]
      simpa using ih'
    · rw [List.filter_cons_of_neg (by simpa using hp)]
      by_cases hq : q a = true
      · rw [List.filter_cons_of_pos hq]
        exact le_trans ih' (by simp)
      · rw [List.filter_cons_of_neg (by simpa using hq)]
        exact ih'

lemma length_filter_lt {β : Type} (l : List β) (p q : β → Bool)
    (h : ∀ x ∈ l, p x = true → q x = true)
    (x : β) (hx : x ∈ l) (hqx : q x = true) (hpx : p x = false) :
    (l.filter p).length < (l.filter q).length := by
  induction l with
  | nil => simp at hx
  | cons a as ih =>
    have hmono : (as.filter p).length ≤ (as.filter q).length :=
      length_filter_mono as p q (fun y hy => h y (by simp [hy]))
    rcases List.mem_cons.1 hx with rfl | hx'
    · rw [List.filter_cons_of_neg (by simp [hpx]), List.filter_cons_of_pos hqx]
      rw [List.length_cons]
      omega
    · have ih' := ih (fun y hy => h y (by simp [hy])) hx'
      by_cases hp : p a = true
      · rw [List.filter_cons_of_pos hp, List.filter_cons_of_pos (h a (by simp) hp)]
        rw [List.length_cons, List.length_cons]
        omega
      · rw [List.filter_cons_of_neg (by simpa using hp)]
        by_cases hq : q a = true
        · rw [List.filter_cons_of_pos hq, List.length_cons]
          omega
        · rw [List.filter_cons_of_neg (by simpa using hq)]
          exact ih'

/-- Every trial that has a dominator in a finite history has an
UNDOMINATED dominator: walk up the (transitive, irreflexive) dominance
order, which strictly shrinks the dominator set. -/
lemma exists_undominated_dominator (dirs : List String) (hist : List MOTrial)
    (t : MOTrial) :
    ∀ (N : ℕ) (u : MOTrial), u ∈ hist → dominates dirs u.values t.values = true →
      (hist.filter (fun v => dominates dirs v.values u.values)).length ≤ N →
      ∃ w ∈ hist, dominates dirs w.values t.values = true ∧
        ∀ v ∈ hist, dominates dirs v.values w.values = false := by
  intro N
  induction N with
  | zero =>
    intro u hu hut hlen
    refine ⟨u, hu, hut, fun v hv => ?_⟩
    by_contra hvu
    rw [Bool.not_eq_false] at hvu
    have hmem : v ∈ hist.filter (fun v => dominates dirs v.values u.values) :=
      List.mem_filter.2 ⟨hv, hvu⟩
    have := List.length_pos.2 (List.ne_nil_of_mem hmem)
    omega
  | succ N ih =>
    intro u hu hut hlen
    by_cases hud : ∃ v ∈ hist, dominates dirs v.values u.values = true
    · obtain ⟨v, hv, hvu⟩ := hud
      have hvt : dominates dirs v.values t.values = true := dominates_trans hvu hut
      have hlt : (hist.filter (fun w => dominates dirs w.values v.values)).length <
          (hist.filter (fun w => dominates dirs w.values u.values)).length :=
        length_filter_lt hist _ _
          (fun w _ hwv => dominates_trans hwv hvu) v hv hvu
          (dominates_irrefl dirs v.values)
      exact ih v hv hvt (by omega)
    · push_neg at hud
      refine ⟨u, hu, hut, fun v hv => ?_⟩
      exact Bool.not_eq_true _ ▸ Bool.eq_false_iff.2 (hud v hv)

lemma paretoFront_sound (dirs : List String) (hist : List MOTrial) :
    ∀ t ∈ paretoFront dirs hist, ∀ u ∈ hist,
      dominates dirs u.values t.values = false := by
  intro t ht u hu
  obtain ⟨-, hcond⟩ := List.mem_filter.1 ht
  rw [Bool.not_eq_true'] at hcond
  rw [List.any_eq_false] at hcond
  exact Bool.eq_false_iff.2 (hcond u hu)

lemma paretoFront_complete (dirs : List String) (hist : List MOTrial) :
    ∀ t ∈ hist, t ∉ paretoFront dirs hist →
      ∃ w ∈ paretoFront dirs hist, dominates dirs w.values t.values = true := by
  intro t ht hnot
  have hany : hist.any (fun u => dominates dirs u.values t.values) = true := by
    by_contra hany
    rw [Bool.not_eq_true, ← Bool.not_eq_true'] at hany
    exact hnot (List.mem_filter.2 ⟨ht, hany⟩)
  obtain ⟨u, hu, hut⟩ := List.any_eq_true.1 hany
  obtain ⟨w, hw, hwt, hund⟩ :=
    exists_undominated_dominator dirs hist t _ u hu hut le_rfl
  refine ⟨w, List.mem_filter.2 ⟨hw, ?_⟩, hwt⟩
  rw [Bool.not_eq_true']
  rw [List.any_eq_false]
  intro x hx
  rw [Bool.not_eq_true]
  exact hund x hx

/-- C6: for every multi-objective run that returns a result, every trial of
the returned Pareto front is not dominated (under the spec's per-direction
dominance rule) by any trial of the full history, and every history trial
not in the front is dominated by at least one front trial. -/
theorem pareto_front_sound_and_complete {α : Type} (space : ParamSpace)
    (objectives directions : List String) (bt : Evaluator α) (data : List α)
    (oracle : ℕ → Trial) (n_trials : ℕ) (res : MOResult)
    (h : moOptimize space objectives directions bt data oracle n_trials = .ok res) :
    (∀ t ∈ res.pareto_trials, ∀ u ∈ res.study_trials,
      dominates directions u.values t.values = false)
    ∧ (∀ t ∈ res.study_trials, t ∉ res.pareto_trials →
      ∃ w ∈ res.pareto_trials, dominates directions w.values t.values = true) := by
  simp only [moOptimize] at h
  split at h
  next e htr => simp at h
  next trials htr =>
    rw [Except.ok.injEq] at h
    subst h
    exact ⟨paretoFront_sound directions trials, paretoFront_complete directions trials⟩

/-- The single trial of the concrete multi-objective run. -/
def exMOTrial : MOTrial := ⟨[("x", PValue.intV 1)], [PyF.val 1]⟩

lemma exMO_eval :
    moOptimize exSpace ["m"] ["maximize"] okEvaluator exData (fun _ => exTrial) 1 =
      .ok ⟨1, [exMOTrial], [exMOTrial]⟩ := by
  rfl

/-- C6 (witness): the theorem at the concrete one-trial run (the sole
Pareto trial is not dominated by itself). -/
theorem pareto_front_sound_and_complete_witness :
    dominates ["maximize"] exMOTrial.values exMOTrial.values = false :=
  (pareto_front_sound_and_complete exSpace ["m"] ["maximize"] okEvaluator exData
    (fun _ => exTrial) 1 ⟨1, [exMOTrial], [exMOTrial]⟩ exMO_eval).1
    exMOTrial (by simp) exMOTrial (by simp)

end Optimizer
